import Mathlib

/-!
Verification of the chitin insight engine: a shallow embedding of the
tokenizer/stemmer, tension detection, conflict detection, retrieval ranking,
context classification and repository operations (contribute, reinforce,
merge), with theorems checking the documented behaviour of each part.
Numeric values are modelled exactly over the rationals; the store is a list
of insight records; timestamps and fresh ids are explicit parameters.
-/

set_option maxRecDepth 4000

/-- Insight categories, matching the closed enumeration in the database
schema (behavioral, personality, relational, principle, skill, trigger). -/
inductive InsightType where
  | behavioral
  | personality
  | relational
  | principle
  | skill
  | trigger
deriving DecidableEq, Repr

/-- A stored insight record, one field per column of the insights table. -/
structure Insight where
  id : String
  type : InsightType
  claim : String
  reasoning : Option String := none
  context : Option String := none
  limitations : Option String := none
  confidence : ℚ
  tags : List String := []
  source : Option String := none
  condition : Option String := none
  avoid : Bool := false
  createdAt : String := ""
  updatedAt : String := ""
  reinforcementCount : ℕ := 0
  lastRetrievedAt : Option String := none
deriving DecidableEq, Repr

/-- The insight store: the rows of the insights table, in insertion order. -/
abbrev Store := List Insight

/-- Point lookup by id (SELECT * FROM insights WHERE id = ?). -/
def getInsight (store : Store) (id : String) : Option Insight :=
  store.find? (fun i => i.id == id)

/-- Input record for a contribution. -/
structure ContributeInput where
  type : InsightType
  claim : String
  reasoning : Option String := none
  context : Option String := none
  limitations : Option String := none
  confidence : ℚ
  tags : Option (List String) := none
  source : Option String := none
  condition : Option String := none
  avoid : Option Bool := none
deriving DecidableEq, Repr

/-- The smaller of two rationals, written as an explicit comparison so the
kernel can evaluate it; models Math.min. -/
def jsMin (a b : ℚ) : ℚ :=
  if a ≤ b then a else b

/-- The larger of two rationals; models Math.max. -/
def jsMax (a b : ℚ) : ℚ :=
  if a ≤ b then b else a

/-- Lowercase a string, one character at a time. -/
def lowerStr (s : String) : String :=
  String.mk (s.data.map Char.toLower)

/-- The length of a string in characters. -/
def strLen (s : String) : ℕ :=
  s.data.length

/-- A character counts as a word character for the \w class of the source
regexes: ASCII letters, digits, or underscore. -/
def isWordChar (c : Char) : Bool :=
  c.isAlpha || c.isDigit || c == '_'

/-- Accumulating splitter: returns the maximal runs of word characters,
which is what splitting on \W+ and dropping empty pieces produces. -/
def splitWordsAux : List Char → List Char → List String
  | [], acc => if acc.isEmpty then [] else [String.mk acc.reverse]
  | c :: cs, acc =>
    if isWordChar c then splitWordsAux cs (c :: acc)
    else if acc.isEmpty then splitWordsAux cs []
    else String.mk acc.reverse :: splitWordsAux cs []

/-- Split a string into its runs of word characters. -/
def splitWords (s : String) : List String :=
  splitWordsAux s.data []

/-- Ordered suffix-stripping rules of the stemmer, as the suffixes of the
anchored regexes in STEM_RULES. -/
def STEM_RULES : List String :=
  ["ness", "ity", "tion", "ment", "ing", "ly", "ous", "ive", "ful",
   "ed", "er", "est", "al", "s"]

/-- Explicit stem mappings for irregular forms. -/
def STEM_MAP : List (String × String) :=
  [("brevity", "brief"),
   ("verbosity", "verbose"),
   ("cautiously", "cautious"),
   ("decisive", "decisive"),
   ("indecisive", "hesitate"),
   ("efficiency", "efficient"),
   ("flexibility", "flexible"),
   ("rigidity", "rigid"),
   ("formality", "formal"),
   ("informality", "informal"),
   ("complexity", "complex"),
   ("simplicity", "simple"),
   ("asking", "ask"),
   ("acting", "act"),
   ("waiting", "wait"),
   ("proceeding", "proceed")]

/-- One step of the source regex replace: an anchored suffix pattern with an
empty replacement strips the suffix when present and otherwise returns the
string unchanged. -/
def replaceSuffix (suf : String) (s : String) : String :=
  if suf.data.isSuffixOf s.data then
    String.mk (s.data.take (s.data.length - suf.data.length))
  else s

/-- The rule loop of the stemmer: take the replace result of each rule in
order and stop at the first one whose result keeps length at least 3
(whether or not the pattern actually matched, exactly as the source does);
if no rule stops the loop the word is returned unchanged. -/
def stemLoop (result : String) : List String → String
  | [] => result
  | suf :: rest =>
    let stemmed := replaceSuffix suf result
    if strLen stemmed ≥ 3 then stemmed else stemLoop result rest

/-- The stemmer: irregular-form lookup first, then the rule loop. -/
def stem (word : String) : String :=
  match STEM_MAP.find? (fun p => p.1 == word) with
  | some p => p.2
  | none => stemLoop word STEM_RULES

/-- Insert a string at the end of a list unless already present; this is the
insertion behaviour of a JS Set kept as a list in insertion order. -/
def addToken (l : List String) (w : String) : List String :=
  if w ∈ l then l else l ++ [w]

/-- Tokenize text into the set of its lowercase words of length above two
plus their stems when these differ, in first-insertion order. -/
def tokenize (text : String) : List String :=
  let words := (splitWords (lowerStr text)).filter (fun w => strLen w > 2)
  words.foldl (fun acc w =>
    let acc2 := addToken acc w
    let stemmed := stem w
    if stemmed ≠ w then addToken acc2 stemmed else acc2) []

/-- Jaccard similarity between two token sets (lists without duplicates):
intersection size over union size, and 0 when both sets are empty. -/
def jaccardSimilarity (a b : List String) : ℚ :=
  if a.length = 0 ∧ b.length = 0 then 0
  else
    let inter := (a.filter (fun w => w ∈ b)).length
    let unionSize := a.length + b.length - inter
    if unionSize = 0 then 0 else (inter : ℚ) / (unionSize : ℚ)

/-- The curated opposing term pairs used for tension detection. -/
def TENSION_PAIRS : List (String × String) :=
  [("verbose", "concise"),
   ("verbose", "brief"),
   ("verbose", "direct"),
   ("verbose", "efficient"),
   ("detailed", "concise"),
   ("detailed", "brief"),
   ("detailed", "direct"),
   ("detailed", "efficient"),
   ("thorough", "concise"),
   ("thorough", "brief"),
   ("elaborate", "concise"),
   ("elaborate", "brief"),
   ("lengthy", "short"),
   ("wordy", "terse"),
   ("wordy", "direct"),
   ("ask", "act"),
   ("cautious", "bold"),
   ("careful", "fast"),
   ("slow", "fast"),
   ("deliberate", "quick"),
   ("wait", "proceed"),
   ("hesitate", "decisive"),
   ("passive", "proactive"),
   ("formal", "casual"),
   ("formal", "informal"),
   ("professional", "casual"),
   ("polite", "blunt"),
   ("diplomatic", "direct"),
   ("strict", "flexible"),
   ("rigid", "adaptive"),
   ("conservative", "aggressive"),
   ("minimal", "comprehensive"),
   ("simple", "complex"),
   ("silent", "vocal"),
   ("quiet", "loud"),
   ("explain", "execute"),
   ("narrate", "silent"),
   ("transparent", "opaque"),
   ("safe", "risky"),
   ("cautious", "adventurous"),
   ("careful", "reckless"),
   ("independent", "dependent"),
   ("autonomous", "supervised"),
   ("initiative", "permission")]

/-- Result of computing semantic tension between two claims. -/
structure TensionResult where
  score : ℚ
  pairs : List (String × String)
deriving DecidableEq, Repr

/-- Whether an opposing pair fires between two token sets: the opposing
terms appear in different claims in either direction, excluding the case
where both claims contain both terms. -/
def tensionPairMatches (wordsA wordsB : List String) (p : String × String) : Bool :=
  let aHas1 := wordsA.contains p.1
  let aHas2 := wordsA.contains p.2
  let bHas1 := wordsB.contains p.1
  let bHas2 := wordsB.contains p.2
  ((aHas1 && bHas2) || (aHas2 && bHas1)) && !(aHas1 && aHas2 && bHas1 && bHas2)

/-- Semantic tension between two claims: collect the opposing pairs that
fire; no pair means score 0, otherwise a diminishing-returns aggregation of
the pair count, capped at 1. -/
def computeTensionScore (claimA claimB : String) : TensionResult :=
  let wordsA := tokenize claimA
  let wordsB := tokenize claimB
  let foundPairs := TENSION_PAIRS.filter (tensionPairMatches wordsA wordsB)
  if foundPairs.length = 0 then ⟨0, []⟩
  else
    let rawScore : ℚ := 1 - 1 / (1 + (3 / 5) * (foundPairs.length : ℚ))
    ⟨jsMin 1 rawScore, foundPairs⟩


/-- Insert an element into a list kept in non-increasing key order. -/
def insertDescBy {α : Type} (key : α → ℚ) (x : α) : List α → List α
  | [] => [x]
  | y :: ys => if key y ≤ key x then x :: y :: ys else y :: insertDescBy key x ys

/-- Sort a list into non-increasing key order; models the descending
comparator sort used by the source on scores. -/
def sortDescBy {α : Type} (key : α → ℚ) : List α → List α
  | [] => []
  | x :: xs => insertDescBy key x (sortDescBy key xs)

theorem insertDescBy_perm {α : Type} (key : α → ℚ) (x : α) (l : List α) :
    List.Perm (insertDescBy key x l) (x :: l) := by
  induction l with
  | nil => simp [insertDescBy]
  | cons y ys ih =>
    simp only [insertDescBy]
    split
    · exact List.Perm.refl _
    · exact (ih.cons y).trans (List.Perm.swap x y ys)

theorem sortDescBy_perm {α : Type} (key : α → ℚ) (l : List α) :
    List.Perm (sortDescBy key l) l := by
  induction l with
  | nil => exact List.Perm.refl _
  | cons x xs ih =>
    exact (insertDescBy_perm key x (sortDescBy key xs)).trans (ih.cons x)

theorem mem_sortDescBy {α : Type} (key : α → ℚ) (l : List α) (a : α) :
    a ∈ sortDescBy key l ↔ a ∈ l :=
  (sortDescBy_perm key l).mem_iff

theorem insertDescBy_sorted {α : Type} (key : α → ℚ) (x : α) (l : List α)
    (h : l.Pairwise (fun a b => key b ≤ key a)) :
    (insertDescBy key x l).Pairwise (fun a b => key b ≤ key a) := by
  induction l with
  | nil => simp [insertDescBy]
  | cons y ys ih =>
    rw [List.pairwise_cons] at h
    obtain ⟨hy, hys⟩ := h
    simp only [insertDescBy]
    split
    case isTrue hle =>
      refine List.pairwise_cons.2 ⟨?_, List.pairwise_cons.2 ⟨hy, hys⟩⟩
      intro z hz
      rcases List.mem_cons.1 hz with rfl | hz2
      · exact hle
      · exact (hy z hz2).trans hle
    case isFalse hlt =>
      refine List.pairwise_cons.2 ⟨?_, ih hys⟩
      intro z hz
      have hz3 := (insertDescBy_perm key x ys).mem_iff.1 hz
      rcases List.mem_cons.1 hz3 with rfl | hz4
      · exact le_of_lt (lt_of_not_le hlt)
      · exact hy z hz4

theorem sortDescBy_sorted {α : Type} (key : α → ℚ) (l : List α) :
    (sortDescBy key l).Pairwise (fun a b => key b ≤ key a) := by
  induction l with
  | nil => simp [sortDescBy]
  | cons x xs ih => exact insertDescBy_sorted key x _ ih

theorem sortDescBy_length {α : Type} (key : α → ℚ) (l : List α) :
    (sortDescBy key l).length = l.length :=
  (sortDescBy_perm key l).length_eq

/-- A detected conflict between a candidate claim and an existing insight. -/
structure ConflictResult where
  insight : Insight
  similarity : ℚ
  tensionScore : ℚ
  tensionReason : String
  conflictScore : ℚ
deriving DecidableEq, Repr

/-- Options of detectConflicts; a missing field takes the default. -/
structure DetectConflictsOptions where
  minConflictScore : Option ℚ := none
  maxResults : Option ℕ := none
deriving Repr

/-- Comma-space join, as the JS Array.join used for the tension reason. -/
def joinCommaSep : List String → String
  | [] => ""
  | [x] => x
  | x :: xs => x ++ ", " ++ joinCommaSep xs

/-- Human-readable explanation built from the matched opposing pairs. -/
def tensionReasonOf (t : TensionResult) : String :=
  if t.pairs.length > 0 then
    joinCommaSep (t.pairs.map (fun p => "\"" ++ p.1 ++ "\" ↔ \"" ++ p.2 ++ "\""))
  else "high word overlap with different emphasis"

/-- The loop body of detectConflicts for one existing insight: the cheap
pre-filter, the combined score, the score threshold, and the built result. -/
def conflictCandidate (inputClaim : String) (minScore : ℚ) (insight : Insight) :
    Option ConflictResult :=
  let similarity := jaccardSimilarity (tokenize inputClaim) (tokenize insight.claim)
  let tension := computeTensionScore inputClaim insight.claim
  if tension.score = 0 ∧ similarity < 3 / 10 then none
  else
    let conflictScore := similarity * (3 / 10) + tension.score * (7 / 10)
    if conflictScore < minScore then none
    else some ⟨insight, similarity, tension.score, tensionReasonOf tension, conflictScore⟩

/-- Detect conflicts between a proposed insight and the existing corpus:
score every stored insight, keep the qualifying ones, sort them by
descending conflict score and truncate to the result cap. -/
def detectConflicts (store : Store) (input : ContributeInput)
    (opts : DetectConflictsOptions) : List ConflictResult :=
  let minScore := opts.minConflictScore.getD (3 / 20)
  let maxResults := opts.maxResults.getD 5
  if store.length = 0 then []
  else
    (sortDescBy (fun c => c.conflictScore)
        (store.filterMap (conflictCandidate input.claim minScore))).take maxResults

/-- Ranking options of retrieve; a missing field takes the default, and the
boost table yields none for a type with no entry. -/
structure RetrieveOptions where
  maxResults : Option ℕ := none
  minConfidence : Option ℚ := none
  types : Option (List InsightType) := none
  typeBoosts : InsightType → Option ℚ := fun _ => none

/-- A retrieval result: the insight, its cosine similarity to the query, and
its composite ranking score. -/
structure ScoredInsight where
  insight : Insight
  similarity : ℚ
  score : ℚ
deriving DecidableEq, Repr

/-- The loop body of retrieve for one nearest-neighbour entry (insight id and
cosine similarity): repository lookup, the confidence and type filters, and
the composite score.  log2Of abstracts the real-valued
Math.log2(reinforcementCount + 2) reinforcement factor. -/
def scoreCandidate (log2Of : ℕ → ℚ) (store : Store) (opts : RetrieveOptions)
    (entry : String × ℚ) : Option ScoredInsight :=
  match getInsight store entry.1 with
  | none => none
  | some insight =>
    let passConfidence :=
      match opts.minConfidence with
      | some m => decide (m ≤ insight.confidence)
      | none => true
    let passTypes :=
      match opts.types with
      | some ts => ts.isEmpty || ts.contains insight.type
      | none => true
    if passConfidence && passTypes then
      let reinforcementFactor := log2Of insight.reinforcementCount
      let typeBoost := (opts.typeBoosts insight.type).getD 1
      some ⟨insight, entry.2, entry.2 * insight.confidence * reinforcementFactor * typeBoost⟩
    else none

/-- Retrieve relevant insights for a query: filter and score the
nearest-neighbour shortlist, sort by descending score, truncate. -/
def retrieve (log2Of : ℕ → ℚ) (store : Store) (nearest : List (String × ℚ))
    (opts : RetrieveOptions) : List ScoredInsight :=
  let maxResults := opts.maxResults.getD 15
  if nearest.length = 0 then []
  else
    (sortDescBy (fun s => s.score)
        (nearest.filterMap (scoreCandidate log2Of store opts))).take maxResults

/-- Context categories of the classifier. -/
inductive ContextCategory where
  | coding
  | communication
  | ethical
  | creative
  | general
deriving DecidableEq, Repr

/-- A detected context: the winning category and its type boost profile. -/
structure DetectedContext where
  category : ContextCategory
  typeBoosts : InsightType → Option ℚ

/-- A keyword signal: category, weight and keyword list. -/
structure SignalPattern where
  category : ContextCategory
  weight : ℚ
  keywords : List String

/-- Keywords of the coding signal. -/
def CODING_KEYWORDS : List String :=
  ["code", "function", "bug", "api", "build", "deploy", "test", "git",
   "commit", "push", "pull", "branch", "merge", "refactor", "debug",
   "typescript", "javascript", "python", "rust", "html", "css",
   "database", "sql", "server", "endpoint", "cli", "npm", "package",
   "compile", "error", "fix", "implement", "architect", "repo",
   "docker", "container", "netlify", "website", "tdd", "lint",
   "schema", "migration", "query", "install", "config"]

/-- Keywords of the communication signal. -/
def COMMUNICATION_KEYWORDS : List String :=
  ["boss", "team", "respond", "reply", "message", "email", "slack",
   "tell", "ask", "explain", "communicate", "feedback", "meeting",
   "person", "people", "coworker", "colleague", "client", "user",
   "conversation", "discuss", "chat", "tone", "polite", "direct"]

/-- Keywords of the ethical signal. -/
def ETHICAL_KEYWORDS : List String :=
  ["ethical", "moral", "right", "wrong", "honest", "honesty", "lie",
   "private", "privacy", "security", "trust", "principle", "value",
   "should", "fair", "integrity", "permission", "consent", "safe",
   "appropriate", "harmful", "responsible", "christian", "faith"]

/-- Keywords of the creative signal. -/
def CREATIVE_KEYWORDS : List String :=
  ["story", "write", "creative", "fun", "humor", "joke", "poem",
   "imagine", "design", "art", "style", "voice", "personality",
   "dream", "philosophical", "reflect", "muse", "inspire"]

/-- The weighted keyword signals, in source order. -/
def SIGNALS : List SignalPattern :=
  [⟨.coding, 1, CODING_KEYWORDS⟩,
   ⟨.communication, 1, COMMUNICATION_KEYWORDS⟩,
   ⟨.ethical, 6 / 5, ETHICAL_KEYWORDS⟩,
   ⟨.creative, 9 / 10, CREATIVE_KEYWORDS⟩]

/-- The per-type boost multipliers per category; a type without an entry in
the source table (trigger, in every profile) yields none. -/
def BOOST_PROFILES : ContextCategory → InsightType → Option ℚ
  | .coding, .skill => some (9 / 5)
  | .coding, .behavioral => some (13 / 10)
  | .coding, .principle => some 1
  | .coding, .personality => some (7 / 10)
  | .coding, .relational => some (4 / 5)
  | .coding, .trigger => none
  | .communication, .relational => some (9 / 5)
  | .communication, .behavioral => some (3 / 2)
  | .communication, .personality => some (6 / 5)
  | .communication, .principle => some 1
  | .communication, .skill => some (3 / 5)
  | .communication, .trigger => none
  | .ethical, .principle => some 2
  | .ethical, .behavioral => some (6 / 5)
  | .ethical, .personality => some 1
  | .ethical, .relational => some 1
  | .ethical, .skill => some (1 / 2)
  | .ethical, .trigger => none
  | .creative, .personality => some (9 / 5)
  | .creative, .behavioral => some (6 / 5)
  | .creative, .relational => some 1
  | .creative, .principle => some (4 / 5)
  | .creative, .skill => some (3 / 5)
  | .creative, .trigger => none
  | .general, .personality => some 1
  | .general, .behavioral => some 1
  | .general, .relational => some 1
  | .general, .principle => some 1
  | .general, .skill => some 1
  | .general, .trigger => none

/-- Substring check on character lists, as the JS String.includes. -/
def containsSubstr : List Char → List Char → Bool
  | [], needle => needle.isEmpty
  | c :: cs, needle => needle.isPrefixOf (c :: cs) || containsSubstr cs needle

/-- A keyword matches when it appears as a whole word or as a substring of
the lowercased text (the compound-word case). -/
def keywordHit (words : List String) (lowerData : List Char) (kw : String) : Bool :=
  words.contains kw || containsSubstr lowerData kw.data

/-- The weighted hit count of every signal category for a text. -/
def contextScores (text : String) : List (ContextCategory × ℚ) :=
  let lower := lowerStr text
  let words := (splitWords lower).filter (fun w => strLen w > 0)
  SIGNALS.map (fun sig =>
    (sig.category,
     ((sig.keywords.filter (keywordHit words lower.data)).length : ℚ) * sig.weight))

/-- The best-scoring category: walk the score entries in object insertion
order (the four signals, then general with score 0), keeping the strictly
larger score, starting from general with score 0. -/
def contextBest (text : String) : ContextCategory × ℚ :=
  (contextScores text ++ [(ContextCategory.general, 0)]).foldl
    (fun (acc c : ContextCategory × ℚ) => if acc.2 < c.2 then c else acc)
    (ContextCategory.general, 0)

/-- Whether a string is empty or whitespace-only, the guard condition of
detectContext on its input text. -/
def isBlankStr (s : String) : Bool :=
  s.data.all (fun c => c.isWhitespace)

/-- Detect the context category of a query and its boost profile; blank
input and a best score below the activation threshold 1 both fall back to
the neutral general category. -/
def detectContext (text : String) : DetectedContext :=
  if isBlankStr text then ⟨.general, BOOST_PROFILES .general⟩
  else
    let best := contextBest text
    let bestCategory := if best.2 < 1 then ContextCategory.general else best.1
    ⟨bestCategory, BOOST_PROFILES bestCategory⟩

/-- Options of merge: an optional override for the merged claim. -/
structure MergeOptions where
  claim : Option String := none
deriving Repr

/-- Result of a repository mutation: a raised error message (the store is
then the untouched input store, because the source throws before running
any update), or none with the updated store. -/
structure RepoResult where
  error : Option String
  store : Store
deriving DecidableEq, Repr

/-- Confidence adjustment rate per reinforcement. -/
def CONFIDENCE_ADJUSTMENT_RATE : ℚ := 1 / 20

/-- Reinforce an insight: bump the reinforcement count by one, nudge the
confidence toward 1 by the adjustment rate (capped at 1), and stamp both the
last-retrieved and updated times with the current time. -/
def reinforce (store : Store) (id : String) (now : String) : RepoResult :=
  match getInsight store id with
  | none => ⟨some ("Insight not found: " ++ id), store⟩
  | some existing =>
    let newConfidence :=
      jsMin 1 (existing.confidence
        + (1 - existing.confidence) * CONFIDENCE_ADJUSTMENT_RATE)
    ⟨none, store.map (fun i =>
      if i.id == id then
        { i with
          reinforcementCount := i.reinforcementCount + 1,
          confidence := newConfidence,
          lastRetrievedAt := some now,
          updatedAt := now }
      else i)⟩

/-- Delete an insight row by id (DELETE FROM insights WHERE id = ?). -/
def archive (store : Store) (id : String) : Store :=
  store.filter (fun i => !(i.id == id))

/-- JS truthiness of an optional string: present and non-empty. -/
def truthyStr : Option String → Bool
  | none => false
  | some s => !s.data.isEmpty

/-- Merge the source insight into the target: after the self-reference and
existence checks, combine the fields deterministically, update the target
row in place, then delete the source row. -/
def merge (store : Store) (sourceId targetId : String) (opts : MergeOptions)
    (now : String) : RepoResult :=
  if sourceId = targetId then ⟨some "Cannot merge an insight with itself", store⟩
  else
    match getInsight store sourceId with
    | none => ⟨some ("Source insight not found: " ++ sourceId), store⟩
    | some src =>
      match getInsight store targetId with
      | none => ⟨some ("Target insight not found: " ++ targetId), store⟩
      | some target =>
        let mergedConfidence := jsMax src.confidence target.confidence
        let mergedTags := (target.tags ++ src.tags).foldl addToken []
        let mergedReinforcement := target.reinforcementCount + src.reinforcementCount
        let mergedReasoning :=
          if truthyStr src.reasoning then
            if truthyStr target.reasoning then
              some (target.reasoning.getD "" ++ "; " ++ src.reasoning.getD "")
            else src.reasoning
          else target.reasoning
        let mergedClaim := opts.claim.getD target.claim
        let updated := store.map (fun i =>
          if i.id == targetId then
            { i with
              claim := mergedClaim,
              confidence := mergedConfidence,
              tags := mergedTags,
              reinforcementCount := mergedReinforcement,
              reasoning := mergedReasoning,
              updatedAt := now }
          else i)
        ⟨none, archive updated sourceId⟩

/-- Contribute a new insight: build the row from the input with the fresh id
and the current time, and append it to the store.  Returns the stored
insight and the new store. -/
def contribute (store : Store) (newId : String) (input : ContributeInput)
    (now : String) : Insight × Store :=
  let insight : Insight :=
    { id := newId,
      type := input.type,
      claim := input.claim,
      reasoning := input.reasoning,
      context := input.context,
      limitations := input.limitations,
      confidence := input.confidence,
      tags := input.tags.getD [],
      source := input.source,
      condition := input.condition,
      avoid := input.avoid.getD false,
      createdAt := now,
      updatedAt := now,
      reinforcementCount := 0,
      lastRetrievedAt := none }
  (insight, store ++ [insight])

/-- Result of a conflict-checked contribution. -/
structure ContributeResult where
  insight : Insight
  conflicts : List ConflictResult
  store : Store
deriving DecidableEq, Repr

/-- Contribute with conflict detection: run the detector against the corpus
as it exists before the insert (or skip it when forced), then write the
insight unconditionally. -/
def contributeWithCheck (store : Store) (newId : String) (input : ContributeInput)
    (now : String) (force : Bool) : ContributeResult :=
  let conflicts := if force then [] else detectConflicts store input {}
  let result := contribute store newId input now
  ⟨result.1, conflicts, result.2⟩

theorem jsMin_eq_min (a b : ℚ) : jsMin a b = min a b :=
  (min_def a b).symm

theorem jsMax_eq_max (a b : ℚ) : jsMax a b = max a b :=
  (max_def a b).symm

theorem jsMin_one_of_le (x : ℚ) (h : x ≤ 1) : jsMin 1 x = x := by
  unfold jsMin
  split
  · exact le_antisymm (by assumption) h
  · rfl

theorem mem_addToken (l : List String) (w x : String) :
    x ∈ addToken l w ↔ x ∈ l ∨ x = w := by
  unfold addToken
  split
  case isTrue hw =>
    constructor
    · exact Or.inl
    · rintro (hx | rfl)
      · exact hx
      · exact hw
  case isFalse hw => simp

theorem nodup_addToken (l : List String) (w : String) (h : l.Nodup) :
    (addToken l w).Nodup := by
  unfold addToken
  split
  · exact h
  case isFalse hw => simp [List.nodup_append, h, hw]

theorem foldl_addToken_nodup (l acc : List String) (h : acc.Nodup) :
    (l.foldl addToken acc).Nodup := by
  induction l generalizing acc with
  | nil => exact h
  | cons y ys ih => exact ih _ (nodup_addToken _ _ h)

theorem mem_foldl_addToken (l acc : List String) (x : String) :
    x ∈ l.foldl addToken acc ↔ x ∈ acc ∨ x ∈ l := by
  induction l generalizing acc with
  | nil => simp
  | cons y ys ih =>
    rw [List.foldl_cons, ih, mem_addToken]
    constructor
    · rintro ((hx | rfl) | hx)
      · exact Or.inl hx
      · exact Or.inr (List.mem_cons_self _ _)
      · exact Or.inr (List.mem_cons_of_mem _ hx)
    · rintro (hx | hx)
      · exact Or.inl (Or.inl hx)
      · rcases List.mem_cons.1 hx with rfl | hx2
        · exact Or.inl (Or.inr rfl)
        · exact Or.inr hx2

theorem find?_map_pres (p : Insight → Bool) (g : Insight → Insight)
    (hg : ∀ i, p (g i) = p i) (store : Store) (tgt : Insight)
    (h : store.find? p = some tgt) : (store.map g).find? p = some (g tgt) := by
  induction store with
  | nil => simp [List.find?] at h
  | cons i rest ih =>
    simp only [List.find?_cons] at h
    simp only [List.map_cons, List.find?_cons, hg i]
    cases hp : p i with
    | false =>
      simp only [hp] at h ⊢
      exact ih h
    | true =>
      simp only [hp] at h ⊢
      cases h
      rfl

theorem find?_filter_keep (p q : Insight → Bool) (store : Store) (tgt : Insight)
    (h : store.find? p = some tgt) (himp : ∀ i, p i = true → q i = true) :
    (store.filter q).find? p = some tgt := by
  induction store with
  | nil => simp [List.find?] at h
  | cons i rest ih =>
    simp only [List.find?_cons] at h
    simp only [List.filter_cons]
    cases hp : p i with
    | false =>
      simp only [hp] at h
      cases hq : q i with
      | false =>
        simp only [hq, Bool.false_eq_true, if_false]
        exact ih h
      | true =>
        simp only [hq, if_true, List.find?_cons, hp]
        exact ih h
    | true =>
      simp only [hp] at h
      cases h
      simp [himp _ hp, List.find?_cons, hp]

theorem find?_filter_not (p : Insight → Bool) (store : Store) :
    (store.filter (fun i => !(p i))).find? p = none := by
  rw [List.find?_eq_none]
  intro a ha
  have := List.of_mem_filter ha
  simp at this
  simp [this]

theorem truthyStr_some_ne (s : String) (h : s ≠ "") : truthyStr (some s) = true := by
  cases s with
  | mk d =>
    cases d with
    | nil => exact absurd rfl h
    | cons c cs => rfl

theorem reinforce_get (store : Store) (id now : String) (ins : Insight)
    (h : getInsight store id = some ins) :
    (reinforce store id now).error = none ∧
    getInsight (reinforce store id now).store id = some
      { ins with
        reinforcementCount := ins.reinforcementCount + 1,
        confidence := jsMin 1 (ins.confidence
          + (1 - ins.confidence) * CONFIDENCE_ADJUSTMENT_RATE),
        lastRetrievedAt := some now,
        updatedAt := now } := by
  have hfind : store.find? (fun i => i.id == id) = some ins := h
  have hid : (ins.id == id) = true := by simpa using List.find?_some hfind
  unfold reinforce
  rw [h]
  refine ⟨rfl, ?_⟩
  show List.find? _ _ = _
  have hres := find?_map_pres (fun i => i.id == id)
      (fun i => if i.id == id then
        { i with
          reinforcementCount := i.reinforcementCount + 1,
          confidence := jsMin 1 (ins.confidence
            + (1 - ins.confidence) * CONFIDENCE_ADJUSTMENT_RATE),
          lastRetrievedAt := some now,
          updatedAt := now } else i)
      (fun i => by by_cases hi : (i.id == id) = true <;> simp [hi]) store ins hfind
  beta_reduce at hres
  rw [if_pos hid] at hres
  exact hres

theorem getInsight_update_archive (store : Store) (sourceId targetId : String)
    (f : Insight → Insight) (hf : ∀ i, (f i).id = i.id) (hne : sourceId ≠ targetId)
    (target : Insight) (ht : getInsight store targetId = some target) :
    getInsight (archive (store.map (fun i => if i.id == targetId then f i else i))
        sourceId) targetId = some (f target) ∧
    getInsight (archive (store.map (fun i => if i.id == targetId then f i else i))
        sourceId) sourceId = none := by
  have hfind : store.find? (fun i => i.id == targetId) = some target := ht
  have hidt : (target.id == targetId) = true := by simpa using List.find?_some hfind
  have hg : ∀ i, ((if i.id == targetId then f i else i).id == targetId) = (i.id == targetId) := by
    intro i
    by_cases hi : (i.id == targetId) = true <;> simp [hi, hf]
  constructor
  · unfold getInsight archive
    have hmap := find?_map_pres (fun i => i.id == targetId)
        (fun i => if i.id == targetId then f i else i) hg store target hfind
    beta_reduce at hmap
    rw [if_pos hidt] at hmap
    refine find?_filter_keep _ _ _ _ hmap ?_
    intro i hpi
    have hieq : i.id = targetId := eq_of_beq hpi
    simp only [Bool.not_eq_true', beq_eq_false_iff_ne]
    intro hsrc
    exact hne (by rw [← hsrc, hieq])
  · unfold getInsight archive
    exact find?_filter_not (fun i => i.id == sourceId) _

theorem merge_ok (store : Store) (sourceId targetId : String) (opts : MergeOptions)
    (now : String) (src target : Insight) (hne : sourceId ≠ targetId)
    (hs : getInsight store sourceId = some src)
    (ht : getInsight store targetId = some target) :
    (merge store sourceId targetId opts now).error = none ∧
    getInsight (merge store sourceId targetId opts now).store targetId = some
      { target with
        claim := opts.claim.getD target.claim,
        confidence := jsMax src.confidence target.confidence,
        tags := (target.tags ++ src.tags).foldl addToken [],
        reinforcementCount := target.reinforcementCount + src.reinforcementCount,
        reasoning :=
          if truthyStr src.reasoning then
            if truthyStr target.reasoning then
              some (target.reasoning.getD "" ++ "; " ++ src.reasoning.getD "")
            else src.reasoning
          else target.reasoning,
        updatedAt := now } ∧
    getInsight (merge store sourceId targetId opts now).store sourceId = none := by
  unfold merge
  rw [if_neg hne, hs, ht]
  have hres := getInsight_update_archive store sourceId targetId
      (fun i =>
        { i with
          claim := opts.claim.getD target.claim,
          confidence := jsMax src.confidence target.confidence,
          tags := (target.tags ++ src.tags).foldl addToken [],
          reinforcementCount := target.reinforcementCount + src.reinforcementCount,
          reasoning :=
            if truthyStr src.reasoning then
              if truthyStr target.reasoning then
                some (target.reasoning.getD "" ++ "; " ++ src.reasoning.getD "")
              else src.reasoning
            else target.reasoning,
          updatedAt := now })
      (fun i => rfl) hne target ht
  exact ⟨rfl, hres.1, hres.2⟩

/-- Claim C4: merging a source insight into a distinct target leaves the
target with confidence the maximum of the two, tags the de-duplicated union
of both tag lists, reinforcement count the sum of both counts, reasoning the
semicolon-join of target and source reasoning when both are non-empty, and
claim the override when provided else the target claim; afterwards the
source id no longer resolves. -/
theorem merge_combines_fields (store : Store) (sourceId targetId : String)
    (opts : MergeOptions) (now : String) (src target : Insight)
    (hne : sourceId ≠ targetId)
    (hs : getInsight store sourceId = some src)
    (ht : getInsight store targetId = some target) :
    ∃ t2, getInsight (merge store sourceId targetId opts now).store targetId = some t2 ∧
      t2.confidence = max src.confidence target.confidence ∧
      t2.tags.Nodup ∧
      (∀ x, x ∈ t2.tags ↔ x ∈ target.tags ∨ x ∈ src.tags) ∧
      t2.reinforcementCount = target.reinforcementCount + src.reinforcementCount ∧
      (∀ rs rt, src.reasoning = some rs → rs ≠ "" → target.reasoning = some rt → rt ≠ "" →
        t2.reasoning = some (rt ++ "; " ++ rs)) ∧
      t2.claim = opts.claim.getD target.claim ∧
      getInsight (merge store sourceId targetId opts now).store sourceId = none := by
  obtain ⟨he, hget, hsrc⟩ := merge_ok store sourceId targetId opts now src target hne hs ht
  refine ⟨_, hget, jsMax_eq_max _ _, foldl_addToken_nodup _ _ List.nodup_nil, ?_, rfl, ?_, rfl, hsrc⟩
  · intro x
    show x ∈ (target.tags ++ src.tags).foldl addToken [] ↔ _
    rw [mem_foldl_addToken]
    simp [List.mem_append]
  · intro rs rt hsr hrs htr hrt
    show (if truthyStr src.reasoning then _ else _) = _
    rw [hsr, htr]
    simp [truthyStr_some_ne _ hrs, truthyStr_some_ne _ hrt]

/-- Concrete merge source used by the witness of the merge field claim. -/
def wMergeSrc : Insight :=
  { id := "s"
    type := InsightType.behavioral
    claim := "a"
    confidence := 1
    tags := ["boss", "efficiency"] }

/-- Concrete merge target used by the witness of the merge field claim. -/
def wMergeTgt : Insight :=
  { id := "t"
    type := InsightType.behavioral
    claim := "b"
    confidence := 0
    tags := ["communication", "efficiency"] }

/-- Claim C4 witness: after a concrete two-insight merge the source id no
longer resolves. -/
theorem merge_combines_fields_witness :
    getInsight (merge [wMergeSrc, wMergeTgt] "s" "t" {} "t1").store "s" = none :=
  (merge_combines_fields [wMergeSrc, wMergeTgt] "s" "t" {} "t1" wMergeSrc wMergeTgt
    (by decide) (by decide) (by decide)).choose_spec.2.2.2.2.2.2.2

/-- Claim C6: merge raises a self-reference error when source and target ids
are equal, and not-found errors when the source or (for a distinct existing
source) the target does not exist; in every such error case the store is
returned unchanged because the source throws before any update runs. -/
theorem merge_error_cases (store : Store) (sourceId targetId : String)
    (opts : MergeOptions) (now : String) :
    (sourceId = targetId →
      (merge store sourceId targetId opts now).error =
        some "Cannot merge an insight with itself" ∧
      (merge store sourceId targetId opts now).store = store) ∧
    (sourceId ≠ targetId → getInsight store sourceId = none →
      (merge store sourceId targetId opts now).error =
        some ("Source insight not found: " ++ sourceId) ∧
      (merge store sourceId targetId opts now).store = store) ∧
    (∀ src, sourceId ≠ targetId → getInsight store sourceId = some src →
      getInsight store targetId = none →
      (merge store sourceId targetId opts now).error =
        some ("Target insight not found: " ++ targetId) ∧
      (merge store sourceId targetId opts now).store = store) := by
  refine ⟨?_, ?_, ?_⟩
  · intro h
    unfold merge
    rw [if_pos h]
    exact ⟨rfl, rfl⟩
  · intro hne hnone
    unfold merge
    rw [if_neg hne, hnone]
    exact ⟨rfl, rfl⟩
  · intro src hne hsome hnone
    unfold merge
    rw [if_neg hne, hsome, hnone]
    exact ⟨rfl, rfl⟩

/-- Claim C6 witness: merging an id with itself on an empty store raises the
self-reference error and leaves the store unchanged. -/
theorem merge_error_cases_witness :
    (merge [] "a" "a" {} "t1").error = some "Cannot merge an insight with itself" ∧
    (merge [] "a" "a" {} "t1").store = [] :=
  (merge_error_cases [] "a" "a" {} "t1").1 rfl

/-- Claim C5: reinforcing an existing insight with confidence in the unit
interval increments the reinforcement count by one and moves confidence to
c + (1 - c) * 0.05, which strictly increases it while it is below one, never
exceeds one, and fixes an exact confidence of one. -/
theorem reinforce_confidence_update (store : Store) (id now : String) (ins : Insight)
    (hg : getInsight store id = some ins) (h0 : 0 ≤ ins.confidence)
    (h1 : ins.confidence ≤ 1) :
    (reinforce store id now).error = none ∧
    ∃ i2, getInsight (reinforce store id now).store id = some i2 ∧
      i2.reinforcementCount = ins.reinforcementCount + 1 ∧
      i2.confidence = ins.confidence + (1 - ins.confidence) * (1 / 20) ∧
      (ins.confidence < 1 → ins.confidence < i2.confidence) ∧
      i2.confidence ≤ 1 ∧
      (ins.confidence = 1 → i2.confidence = 1) := by
  obtain ⟨he, hget⟩ := reinforce_get store id now ins hg
  have hle : ins.confidence + (1 - ins.confidence) * CONFIDENCE_ADJUSTMENT_RATE ≤ 1 := by
    unfold CONFIDENCE_ADJUSTMENT_RATE
    linarith
  have hmin := jsMin_one_of_le _ hle
  refine ⟨he, _, hget, rfl, ?_, ?_, ?_, ?_⟩
  · show jsMin 1 (ins.confidence + (1 - ins.confidence) * CONFIDENCE_ADJUSTMENT_RATE) = _
    rw [hmin]
    unfold CONFIDENCE_ADJUSTMENT_RATE
    rfl
  · intro hlt
    show ins.confidence < jsMin 1 (ins.confidence
      + (1 - ins.confidence) * CONFIDENCE_ADJUSTMENT_RATE)
    rw [hmin]
    unfold CONFIDENCE_ADJUSTMENT_RATE
    nlinarith
  · show jsMin 1 (ins.confidence + (1 - ins.confidence) * CONFIDENCE_ADJUSTMENT_RATE) ≤ 1
    rw [hmin]
    exact hle
  · intro hone
    show jsMin 1 (ins.confidence + (1 - ins.confidence) * CONFIDENCE_ADJUSTMENT_RATE) = 1
    rw [hmin, hone]
    ring

/-- Concrete insight used by the witness of the reinforcement claim. -/
def wReinfIns : Insight :=
  { id := "a"
    type := InsightType.behavioral
    claim := "x"
    confidence := 0 }

/-- Claim C5 witness: reinforcing a concrete zero-confidence insight
succeeds. -/
theorem reinforce_confidence_update_witness :
    (reinforce [wReinfIns] "a" "t1").error = none :=
  (reinforce_confidence_update [wReinfIns] "a" "t1" wReinfIns
    (by decide) (by decide) (by decide)).1

/-- Claim C10: reinforce also stamps lastRetrievedAt and updatedAt with the
current time, and leaves every field other than confidence, the
reinforcement count and those two timestamps unchanged. -/
theorem reinforce_frame (store : Store) (id now : String) (ins : Insight)
    (hg : getInsight store id = some ins) :
    ∃ i2, getInsight (reinforce store id now).store id = some i2 ∧
      i2.lastRetrievedAt = some now ∧
      i2.updatedAt = now ∧
      i2.claim = ins.claim ∧
      i2.type = ins.type ∧
      i2.reasoning = ins.reasoning ∧
      i2.context = ins.context ∧
      i2.limitations = ins.limitations ∧
      i2.tags = ins.tags ∧
      i2.source = ins.source ∧
      i2.condition = ins.condition ∧
      i2.avoid = ins.avoid ∧
      i2.createdAt = ins.createdAt ∧
      i2.reinforcementCount = ins.reinforcementCount + 1 := by
  obtain ⟨_, hget⟩ := reinforce_get store id now ins hg
  exact ⟨_, hget, rfl, rfl, rfl, rfl, rfl, rfl, rfl, rfl, rfl, rfl, rfl, rfl, rfl⟩

/-- Concrete insight used by the witness of the reinforcement frame claim. -/
def wFrameIns : Insight :=
  { id := "b"
    type := InsightType.skill
    claim := "y"
    confidence := 1 }

/-- Claim C10 witness: the reinforced copy of a concrete insight keeps every
untouched field and stamps the timestamps. -/
theorem reinforce_frame_witness :
    ∃ i2, getInsight (reinforce [wFrameIns] "b" "t2").store "b" = some i2 ∧
      i2.lastRetrievedAt = some "t2" ∧
      i2.updatedAt = "t2" ∧
      i2.claim = "y" ∧
      i2.type = InsightType.skill ∧
      i2.reasoning = none ∧
      i2.context = none ∧
      i2.limitations = none ∧
      i2.tags = [] ∧
      i2.source = none ∧
      i2.condition = none ∧
      i2.avoid = false ∧
      i2.createdAt = "" ∧
      i2.reinforcementCount = 0 + 1 :=
  reinforce_frame [wFrameIns] "b" "t2" wFrameIns (by decide)

/-- Claim C7 (code behaviour at the failing inputs): the rule loop of the
stemmer stops at the first rule whose replace result has length at least 3
even when that rule did not match, so any token of length at least 3 that
does not end in ness is returned unchanged: quickly does not stem to quick
and detailed does not stem to detail, contradicting the comments next to the
rules and the documented examples; only the ness rule (and the irregular
map) ever strips anything. -/
theorem stem_first_rule_always_stops :
    stem "quickly" = "quickly" ∧ stem "detailed" = "detailed" ∧
    stem "directness" = "direct" ∧ stem "brevity" = "brief" := by decide

theorem contains_eq_decide_mem (l : List String) (a : String) :
    l.contains a = decide (a ∈ l) := by
  by_cases h : a ∈ l <;> simp [h]

/-- The number of curated opposing pairs matched between two claims, written
the way the specification words it: one token set contains the first term of
the pair and the other contains the second, in either direction, excluding
pairs where both claims contain both terms. -/
def specMatchedPairCount (claimA claimB : String) : ℕ :=
  (TENSION_PAIRS.filter (fun p =>
    decide (((p.1 ∈ tokenize claimA ∧ p.2 ∈ tokenize claimB) ∨
             (p.2 ∈ tokenize claimA ∧ p.1 ∈ tokenize claimB)) ∧
      ¬(p.1 ∈ tokenize claimA ∧ p.2 ∈ tokenize claimA ∧
        p.1 ∈ tokenize claimB ∧ p.2 ∈ tokenize claimB)))).length

theorem tensionPairMatches_eq_spec (claimA claimB : String) :
    TENSION_PAIRS.filter (tensionPairMatches (tokenize claimA) (tokenize claimB)) =
      TENSION_PAIRS.filter (fun p =>
        decide (((p.1 ∈ tokenize claimA ∧ p.2 ∈ tokenize claimB) ∨
                 (p.2 ∈ tokenize claimA ∧ p.1 ∈ tokenize claimB)) ∧
          ¬(p.1 ∈ tokenize claimA ∧ p.2 ∈ tokenize claimA ∧
            p.1 ∈ tokenize claimB ∧ p.2 ∈ tokenize claimB))) := by
  apply List.filter_congr
  intro p hp
  by_cases h1 : p.1 ∈ tokenize claimA <;>
    by_cases h2 : p.2 ∈ tokenize claimA <;>
      by_cases h3 : p.1 ∈ tokenize claimB <;>
        by_cases h4 : p.2 ∈ tokenize claimB <;>
          simp [tensionPairMatches, contains_eq_decide_mem, h1, h2, h3, h4]

theorem computeTensionScore_score (claimA claimB : String) :
    (computeTensionScore claimA claimB).score =
      (if (TENSION_PAIRS.filter
            (tensionPairMatches (tokenize claimA) (tokenize claimB))).length = 0
       then 0
       else jsMin 1 (1 - 1 / (1 + (3 / 5) *
         ((TENSION_PAIRS.filter
            (tensionPairMatches (tokenize claimA) (tokenize claimB))).length : ℚ)))) := by
  unfold computeTensionScore
  dsimp only
  split
  case isTrue h => rfl
  case isFalse h => rfl

/-- Claim C3: the tension score is 0 when no opposing pair matches and
otherwise exactly 1 - 1/(1 + 0.6 n) for n the number of matched opposing
pairs (one token set holds one term and the other holds the opposite term,
in either direction, excluding pairs both claims contain in full), and the
score never exceeds 1. -/
theorem computeTensionScore_formula (claimA claimB : String) :
    ((computeTensionScore claimA claimB).score =
      if specMatchedPairCount claimA claimB = 0 then 0
      else 1 - 1 / (1 + (3 / 5) * (specMatchedPairCount claimA claimB : ℚ))) ∧
    (computeTensionScore claimA claimB).score ≤ 1 := by
  have hshape := computeTensionScore_score claimA claimB
  have hcount : (TENSION_PAIRS.filter
      (tensionPairMatches (tokenize claimA) (tokenize claimB))).length =
      specMatchedPairCount claimA claimB :=
    congrArg List.length (tensionPairMatches_eq_spec claimA claimB)
  rw [hcount] at hshape
  by_cases hn : specMatchedPairCount claimA claimB = 0
  · rw [hshape, if_pos hn, if_pos hn]
    norm_num
  · have hnn : (0 : ℚ) ≤ (specMatchedPairCount claimA claimB : ℚ) := Nat.cast_nonneg _
    have hpos : (0 : ℚ) < 1 + (3 / 5) * (specMatchedPairCount claimA claimB : ℚ) := by
      nlinarith
    have hfrac : (0 : ℚ) < 1 / (1 + (3 / 5) * (specMatchedPairCount claimA claimB : ℚ)) :=
      by positivity
    have hraw : 1 - 1 / (1 + (3 / 5) * (specMatchedPairCount claimA claimB : ℚ)) ≤ 1 := by
      linarith
    have hmin := jsMin_one_of_le _ hraw
    rw [hshape, if_neg hn, if_neg hn, hmin]
    exact ⟨rfl, hraw⟩

theorem scoreCandidate_eq_some (log2Of : ℕ → ℚ) (store : Store) (opts : RetrieveOptions)
    (e : String × ℚ) (s : ScoredInsight)
    (h : scoreCandidate log2Of store opts e = some s) :
    getInsight store e.1 = some s.insight ∧
    s.similarity = e.2 ∧
    s.score = e.2 * s.insight.confidence * log2Of s.insight.reinforcementCount *
      ((opts.typeBoosts s.insight.type).getD 1) ∧
    (∀ m, opts.minConfidence = some m → m ≤ s.insight.confidence) ∧
    (∀ ts, opts.types = some ts → ts ≠ [] → s.insight.type ∈ ts) := by
  unfold scoreCandidate at h
  rcases hg : getInsight store e.1 with _ | insight
  · rw [hg] at h
    exact absurd h (by simp)
  · rw [hg] at h
    dsimp only at h
    split at h
    case isFalse => exact absurd h (by simp)
    case isTrue hcond =>
      cases h
      rw [Bool.and_eq_true] at hcond
      refine ⟨rfl, rfl, rfl, ?_, ?_⟩
      · intro m hm
        have h1 := hcond.1
        rw [hm] at h1
        exact of_decide_eq_true h1
      · intro ts hts hne
        have h2 := hcond.2
        rw [hts] at h2
        dsimp only at h2
        rw [Bool.or_eq_true] at h2
        rcases h2 with hemp | hcont
        · exact absurd (List.isEmpty_iff.1 hemp) hne
        · simpa using hcont

/-- Claim C1 (amended): every element returned by retrieve has score equal
to the similarity from the nearest-neighbour shortlist (the cosine
similarity of the query and the insight embedding) times confidence times
the log2-based reinforcement factor times the type boost (1 when the type
has no boost entry); the result is sorted non-increasing by score and at
most maxResults long (default 15); a result never has confidence below a
given minConfidence, and never has a type outside a given non-empty types
filter.  (When the types filter is given but empty the source skips the
type filter entirely.) -/
theorem retrieve_spec (log2Of : ℕ → ℚ) (store : Store) (nearest : List (String × ℚ))
    (opts : RetrieveOptions) :
    (∀ s ∈ retrieve log2Of store nearest opts,
      s.score = s.similarity * s.insight.confidence *
        log2Of s.insight.reinforcementCount * ((opts.typeBoosts s.insight.type).getD 1) ∧
      (∃ p ∈ nearest, getInsight store p.1 = some s.insight ∧ s.similarity = p.2) ∧
      (∀ m, opts.minConfidence = some m → m ≤ s.insight.confidence) ∧
      (∀ ts, opts.types = some ts → ts ≠ [] → s.insight.type ∈ ts)) ∧
    List.Pairwise (fun a b => b.score ≤ a.score) (retrieve log2Of store nearest opts) ∧
    (retrieve log2Of store nearest opts).length ≤ opts.maxResults.getD 15 := by
  unfold retrieve
  dsimp only
  split
  case isTrue h =>
    refine ⟨?_, List.Pairwise.nil, by simp⟩
    intro s hs
    simp at hs
  case isFalse h =>
    refine ⟨?_, ?_, ?_⟩
    · intro s hs
      have hs2 : s ∈ sortDescBy (fun s => s.score)
          (nearest.filterMap (scoreCandidate log2Of store opts)) :=
        List.take_subset _ _ hs
      have hs3 := (mem_sortDescBy _ _ _).1 hs2
      obtain ⟨e, he, hsc⟩ := List.mem_filterMap.1 hs3
      obtain ⟨hg, hsim, hscore, hmc, hty⟩ := scoreCandidate_eq_some log2Of store opts e s hsc
      refine ⟨?_, ⟨e, he, hg, hsim⟩, hmc, hty⟩
      rw [hsim]
      exact hscore
    · exact (sortDescBy_sorted _ _).sublist (List.take_sublist _ _)
    · exact List.length_take_le _ _

/-- Concrete skill insight used by the counterexample of the retrieval
claim. -/
def cexSkillInsight : Insight :=
  { id := "a"
    type := InsightType.skill
    claim := "x"
    confidence := 1 }

/-- Claim C1 counterexample: with the types option explicitly set to the
empty list the source skips the type filter, so retrieve returns the skill
insight even though the skill type is not a member of the given (empty)
types filter: the output does contain an insight whose type is outside the
filter. -/
theorem retrieve_empty_types_filter_cex :
    (⟨cexSkillInsight, 1, 1⟩ : ScoredInsight) ∈
      retrieve (fun _ => 1) [cexSkillInsight] [("a", 1)] { types := some [] } ∧
    cexSkillInsight.type ∉ ([] : List InsightType) := by
  with_unfolding_all decide

/-- Concrete insight used by the witness of the retrieval claim. -/
def wRetrIns : Insight :=
  { id := "r"
    type := InsightType.behavioral
    claim := "x"
    confidence := 1 }

/-- Claim C1 witness: a retrieved result under a minConfidence of 1 indeed
has confidence at least 1. -/
theorem retrieve_spec_witness : (1 : ℚ) ≤ wRetrIns.confidence :=
  (((retrieve_spec (fun _ => 1) [wRetrIns] [("r", 1)]
      { minConfidence := some 1 }).1 ⟨wRetrIns, 1, 1⟩
      (by with_unfolding_all decide)).2.2.1 1 rfl)

theorem conflictCandidate_eq_some (inputClaim : String) (minScore : ℚ) (i : Insight)
    (c : ConflictResult) (h : conflictCandidate inputClaim minScore i = some c) :
    c.insight = i ∧
    c.similarity = jaccardSimilarity (tokenize inputClaim) (tokenize i.claim) ∧
    c.tensionScore = (computeTensionScore inputClaim i.claim).score ∧
    c.conflictScore = c.similarity * (3 / 10) + c.tensionScore * (7 / 10) ∧
    ¬((computeTensionScore inputClaim i.claim).score = 0 ∧
      jaccardSimilarity (tokenize inputClaim) (tokenize i.claim) < 3 / 10) ∧
    minScore ≤ c.conflictScore := by
  unfold conflictCandidate at h
  dsimp only at h
  split at h
  case isTrue hpre => exact absurd h (by simp)
  case isFalse hpre =>
    split at h
    case isTrue hmin => exact absurd h (by simp)
    case isFalse hmin =>
      cases h
      exact ⟨rfl, rfl, rfl, rfl, hpre, le_of_not_lt hmin⟩

theorem conflictCandidate_qualifies (inputClaim : String) (minScore : ℚ) (i : Insight)
    (hpre : ¬((computeTensionScore inputClaim i.claim).score = 0 ∧
      jaccardSimilarity (tokenize inputClaim) (tokenize i.claim) < 3 / 10))
    (hmin : minScore ≤ jaccardSimilarity (tokenize inputClaim) (tokenize i.claim) * (3 / 10)
      + (computeTensionScore inputClaim i.claim).score * (7 / 10)) :
    ∃ c, conflictCandidate inputClaim minScore i = some c ∧ c.insight = i := by
  unfold conflictCandidate
  dsimp only
  rw [if_neg hpre, if_neg (not_lt.2 hmin)]
  exact ⟨_, rfl, rfl⟩

theorem detectConflicts_eq (store : Store) (input : ContributeInput)
    (opts : DetectConflictsOptions) :
    detectConflicts store input opts =
      if store.length = 0 then []
      else (sortDescBy (fun c => c.conflictScore)
        (store.filterMap (conflictCandidate input.claim
          (opts.minConflictScore.getD (3 / 20))))).take (opts.maxResults.getD 5) :=
  rfl

theorem detectConflicts_insight_mem (store : Store) (input : ContributeInput)
    (opts : DetectConflictsOptions) (c : ConflictResult)
    (hc : c ∈ detectConflicts store input opts) : c.insight ∈ store := by
  rw [detectConflicts_eq] at hc
  split at hc
  · simp at hc
  · have hc2 := List.take_subset _ _ hc
    have hc3 := (mem_sortDescBy _ _ _).1 hc2
    obtain ⟨i, hi, hcand⟩ := List.mem_filterMap.1 hc3
    obtain ⟨heq, -, -, -, -, -⟩ := conflictCandidate_eq_some _ _ _ _ hcand
    rw [heq]
    exact hi

/-- Claim C2: every conflict returned by detectConflicts references a stored
insight that passes the pre-filter (not both tension 0 and similarity below
0.3) and whose conflict score 0.3 similarity + 0.7 tension reaches the
minimum (default 0.15); the output is sorted non-increasing by conflict
score and capped at maxResults (default 5); an empty corpus yields the empty
list; and every qualifying stored insight appears in the output whenever the
qualifying candidates fit under the cap. -/
theorem detectConflicts_spec (store : Store) (input : ContributeInput)
    (opts : DetectConflictsOptions) :
    (∀ c ∈ detectConflicts store input opts,
      c.insight ∈ store ∧
      ¬((computeTensionScore input.claim c.insight.claim).score = 0 ∧
        jaccardSimilarity (tokenize input.claim) (tokenize c.insight.claim) < 3 / 10) ∧
      c.conflictScore =
        jaccardSimilarity (tokenize input.claim) (tokenize c.insight.claim) * (3 / 10) +
          (computeTensionScore input.claim c.insight.claim).score * (7 / 10) ∧
      opts.minConflictScore.getD (3 / 20) ≤ c.conflictScore) ∧
    List.Pairwise (fun a b => b.conflictScore ≤ a.conflictScore)
      (detectConflicts store input opts) ∧
    (detectConflicts store input opts).length ≤ opts.maxResults.getD 5 ∧
    (store = [] → detectConflicts store input opts = []) ∧
    (∀ i ∈ store,
      ¬((computeTensionScore input.claim i.claim).score = 0 ∧
        jaccardSimilarity (tokenize input.claim) (tokenize i.claim) < 3 / 10) →
      opts.minConflictScore.getD (3 / 20) ≤
        jaccardSimilarity (tokenize input.claim) (tokenize i.claim) * (3 / 10) +
          (computeTensionScore input.claim i.claim).score * (7 / 10) →
      (store.filterMap (conflictCandidate input.claim
        (opts.minConflictScore.getD (3 / 20)))).length ≤ opts.maxResults.getD 5 →
      ∃ c ∈ detectConflicts store input opts, c.insight = i) := by
  rw [detectConflicts_eq]
  by_cases hemp : store.length = 0
  · rw [if_pos hemp]
    have hstore : store = [] := List.length_eq_zero.1 hemp
    refine ⟨by simp, List.Pairwise.nil, by simp, fun _ => rfl, ?_⟩
    intro i hi
    rw [hstore] at hi
    simp at hi
  · rw [if_neg hemp]
    refine ⟨?_, ?_, ?_, ?_, ?_⟩
    · intro c hc
      have hc2 := List.take_subset _ _ hc
      have hc3 := (mem_sortDescBy _ _ _).1 hc2
      obtain ⟨i, hi, hcand⟩ := List.mem_filterMap.1 hc3
      obtain ⟨heq, hsim, hten, hscore, hpre, hmin⟩ :=
        conflictCandidate_eq_some _ _ _ _ hcand
      refine ⟨heq ▸ hi, ?_, ?_, hmin⟩
      · rw [heq]
        exact hpre
      · rw [heq, hscore, hsim, hten]
    · exact (sortDescBy_sorted _ _).sublist (List.take_sublist _ _)
    · exact List.length_take_le _ _
    · intro hstore
      rw [hstore] at hemp
      simp at hemp
    · intro i hi hpre hmin hlen
      obtain ⟨c, hcand, hcin⟩ := conflictCandidate_qualifies input.claim
        (opts.minConflictScore.getD (3 / 20)) i hpre hmin
      have hmem : c ∈ store.filterMap (conflictCandidate input.claim
          (opts.minConflictScore.getD (3 / 20))) :=
        List.mem_filterMap.2 ⟨i, hi, hcand⟩
      have hsortlen : (sortDescBy (fun c => c.conflictScore)
          (store.filterMap (conflictCandidate input.claim
            (opts.minConflictScore.getD (3 / 20))))).length ≤ opts.maxResults.getD 5 := by
        rw [sortDescBy_length]
        exact hlen
      rw [List.take_of_length_le hsortlen]
      exact ⟨c, (mem_sortDescBy _ _ _).2 hmem, hcin⟩

/-- Concrete existing insight used by the witness of the conflict detection
claim. -/
def wVerboseIns : Insight :=
  { id := "b"
    type := InsightType.behavioral
    claim := "be verbose"
    confidence := 1 }

/-- Concrete candidate input used by the witness of the conflict detection
claim. -/
def wConciseInput : ContributeInput :=
  { type := InsightType.behavioral
    claim := "be concise"
    confidence := 1 }

/-- The conflict record produced for the witness of the conflict detection
claim. -/
def wConflictRes : ConflictResult :=
  { insight := wVerboseIns
    similarity := 0
    tensionScore := 3 / 8
    tensionReason := "\"verbose\" ↔ \"concise\""
    conflictScore := 21 / 80 }


theorem wConflictCandidate_eq :
    conflictCandidate "be concise" (3 / 20) wVerboseIns = some wConflictRes := by
  have hjac : jaccardSimilarity (tokenize "be concise") (tokenize "be verbose") = 0 := by
    with_unfolding_all decide
  have hten : computeTensionScore "be concise" "be verbose" =
      { score := 3 / 8, pairs := [("verbose", "concise")] } := by
    with_unfolding_all decide
  have hreason : tensionReasonOf { score := 3 / 8, pairs := [("verbose", "concise")] } =
      "\"verbose\" ↔ \"concise\"" := by decide
  unfold conflictCandidate wVerboseIns
  dsimp only
  rw [hjac, hten]
  dsimp only
  rw [if_neg (by norm_num), if_neg (by norm_num)]
  simp only [wConflictRes, wVerboseIns, Option.some.injEq, ConflictResult.mk.injEq, hreason,
    eq_self_iff_true, true_and, and_true]
  norm_num

theorem wDetectConflicts_eq :
    detectConflicts [wVerboseIns] wConciseInput {} = [wConflictRes] := by
  rw [detectConflicts_eq]
  rw [if_neg (by simp)]
  have harg : ([wVerboseIns] : Store).filterMap (conflictCandidate wConciseInput.claim
      ((({} : DetectConflictsOptions).minConflictScore).getD (3 / 20))) = [wConflictRes] := by
    show List.filterMap (conflictCandidate "be concise" (3 / 20)) [wVerboseIns] = [wConflictRes]
    rw [List.filterMap_cons, wConflictCandidate_eq]
    rfl
  rw [harg]
  rfl

/-- Claim C2 witness: the conflict detected between two concrete opposing
claims references the stored insight. -/
theorem detectConflicts_spec_witness : wConflictRes.insight ∈ [wVerboseIns] :=
  ((detectConflicts_spec [wVerboseIns] wConciseInput {}).1 wConflictRes
    (by rw [wDetectConflicts_eq]; exact List.mem_singleton_self _)).1

/-- Claim C9: the conflicts returned by a conflict-checked contribution are
detected against the corpus as it existed before the insert, so they never
include the insight created by that same call (whose id is fresh), even
though a claim always has full word overlap with itself. -/
theorem contributeWithCheck_no_self_conflict (store : Store) (newId : String)
    (input : ContributeInput) (now : String) (force : Bool)
    (hfresh : ∀ i ∈ store, i.id ≠ newId) :
    ∀ c ∈ (contributeWithCheck store newId input now force).conflicts,
      c.insight ≠ (contributeWithCheck store newId input now force).insight ∧
      c.insight.id ≠ newId := by
  intro c hc
  have hconf : (contributeWithCheck store newId input now force).conflicts =
      if force then [] else detectConflicts store input {} := rfl
  rw [hconf] at hc
  by_cases hf : force
  · rw [if_pos hf] at hc
    simp at hc
  · rw [if_neg hf] at hc
    have hmem := detectConflicts_insight_mem store input {} c hc
    have hid := hfresh _ hmem
    have hins : (contributeWithCheck store newId input now force).insight.id = newId := rfl
    refine ⟨?_, hid⟩
    intro heq
    exact hid (by rw [heq, hins])

theorem wContribConflicts_eq :
    (contributeWithCheck [wVerboseIns] "n" wConciseInput "t0" false).conflicts =
      [wConflictRes] := by
  show detectConflicts [wVerboseIns] wConciseInput {} = [wConflictRes]
  exact wDetectConflicts_eq

/-- Claim C9 witness: at a concrete conflicting contribution the returned
conflict is not the freshly created insight. -/
theorem contributeWithCheck_no_self_conflict_witness :
    wConflictRes.insight ≠
      (contributeWithCheck [wVerboseIns] "n" wConciseInput "t0" false).insight ∧
    wConflictRes.insight.id ≠ "n" :=
  contributeWithCheck_no_self_conflict [wVerboseIns] "n" wConciseInput "t0" false
    (by decide) wConflictRes
    (by rw [wContribConflicts_eq]; exact List.mem_singleton_self _)

/-- Claim C8 counterexample: on empty input detectContext returns the
general category with the general boost profile, but that profile has no
entry for the trigger type of the closed six-type enumeration, so it does
not assign multiplier 1.0 to every insight type. -/
theorem detectContext_trigger_profile_cex :
    (detectContext "").category = ContextCategory.general ∧
    (detectContext "").typeBoosts InsightType.trigger = none ∧
    (detectContext "").typeBoosts InsightType.trigger ≠ some 1 := by decide

/-- Claim C8 (amended): detectContext never fails on empty or
whitespace-only input and returns the neutral general category there; the
general profile assigns multiplier 1.0 to each of the five insight types
that have entries (behavioral, personality, relational, principle, skill)
and has no entry for the trigger type; and whenever the best weighted
keyword score is below the activation threshold 1 the same general profile
is returned. -/
theorem detectContext_general_neutral (text : String) :
    (isBlankStr text = true →
      (detectContext text).category = ContextCategory.general ∧
      (detectContext text).typeBoosts = BOOST_PROFILES ContextCategory.general) ∧
    ((contextBest text).2 < 1 →
      (detectContext text).category = ContextCategory.general ∧
      (detectContext text).typeBoosts = BOOST_PROFILES ContextCategory.general) ∧
    (∀ t, t = InsightType.behavioral ∨ t = InsightType.personality ∨
        t = InsightType.relational ∨ t = InsightType.principle ∨ t = InsightType.skill →
      BOOST_PROFILES ContextCategory.general t = some 1) ∧
    BOOST_PROFILES ContextCategory.general InsightType.trigger = none := by
  refine ⟨?_, ?_, ?_, rfl⟩
  · intro hb
    unfold detectContext
    rw [if_pos hb]
    exact ⟨rfl, rfl⟩
  · intro hlt
    unfold detectContext
    by_cases hb : isBlankStr text = true
    · rw [if_pos hb]
      exact ⟨rfl, rfl⟩
    · rw [if_neg hb]
      dsimp only
      rw [if_pos hlt]
      exact ⟨rfl, rfl⟩
  · rintro t (rfl | rfl | rfl | rfl | rfl) <;> rfl

/-- Claim C8 witness: whitespace-only input yields the neutral general
category and profile. -/
theorem detectContext_general_neutral_witness :
    (detectContext "   ").category = ContextCategory.general ∧
    (detectContext "   ").typeBoosts = BOOST_PROFILES ContextCategory.general :=
  (detectContext_general_neutral "   ").1 (by decide)
